import Mathlib

/-!
Verification of the ark-log-watchdog core pipeline against its source.

Shallow embedding of the Python modules `watcher.py`, `ocr.py`,
`line_detector.py` and `utils.py`.  Text is modelled as `List Char`
(ASCII inputs), Python ints as `Int`, floating point medians as `Rat`.
External collaborators (the `re` module for arbitrary user patterns, the
OCR engine, the notifier) are modelled as explicit function parameters;
the two fixed regular expressions of `watcher.py` are compiled by hand
into executable matchers below.
-/

namespace Ark

/-- Text is a list of characters (Python `str`, ASCII fragment). -/
abbrev Str := List Char

/-- Python whitespace class for `str.strip` and the regex class backslash-s
(ASCII part): space, tab, newline, carriage return, vertical tab, form feed. -/
def pySpace (c : Char) : Bool :=
  c = ' ' || c = '\t' || c = '\n' || c = '\r' || c = '\x0b' || c = '\x0c'

/-- ASCII decimal digit, the regex class backslash-d on ASCII input. -/
def digitCh (c : Char) : Bool := '0' ≤ c && c ≤ '9'

/-- Word character for the regex boundary backslash-b on ASCII input:
letters, digits and underscore. -/
def wordCh (c : Char) : Bool :=
  ( 'a' ≤ c && c ≤ 'z') || ( 'A' ≤ c && c ≤ 'Z') || digitCh c || c = '_'

/-- Python `str.lower` on ASCII text. -/
def lowerStr (s : Str) : Str := s.map Char.toLower

/-- Python `str.strip`: drop leading and trailing whitespace. -/
def strip (s : Str) : Str :=
  ((s.dropWhile pySpace).reverse.dropWhile pySpace).reverse

/-- Python substring containment `p in s` on lists of characters. -/
def isSubstr (p : Str) : Str → Bool
  | [] => p.isPrefixOf []
  | c :: rest => p.isPrefixOf (c :: rest) || isSubstr p rest

/-- Split a text into its maximal leading run of decimal digits and the rest. -/
def spanDigits (s : Str) : Str × Str :=
  (s.takeWhile digitCh, s.dropWhile digitCh)

/-- Numeric value of a digit string (Python `int` on a captured group). -/
def digitsToNat (ds : Str) : Nat :=
  ds.foldl (fun a c => 10 * a + (c.toNat - 48)) 0

/-- Decimal digit string of a natural number (Python format `d`). -/
def natDigits (n : Nat) : Str := Nat.toDigits 10 n

/-- Zero-padded two-digit rendering (Python format `02d`) of a value below 100. -/
def pad2 (n : Nat) : Str :=
  let ds := natDigits n
  if ds.length < 2 then '0' :: ds else ds

/-!
### watcher.py — canonical header key

The module constant `_CANON_RE` is the compiled pattern
`(?i)day\s*(\d\x7b1,6\x7d)\s*[,;]\s*(\d\x7b1,2\x7d)[:;](\d\x7b2\x7d)[:;](\d\x7b2\x7d)`.
`matchCanonAt` decides whether the pattern matches at the head of the text
and returns the four captured groups as numbers.  The bounded greedy digit
groups admit no residual backtracking: a shorter digit capture always leaves
a digit in a position where only whitespace or a separator may stand, so the
pattern matches at a position exactly when the maximal digit run is within
the counted bound and the following literal is present.
-/

/-- Match `_CANON_RE` anchored at the start of `s`, returning the parsed
`(day, hour, minute, second)` groups. -/
def matchCanonAt (s : Str) : Option (Nat × Nat × Nat × Nat) :=
  match s with
  | c1 :: c2 :: c3 :: rest =>
    if c1.toLower = 'd' && c2.toLower = 'a' && c3.toLower = 'y' then
      let (ds, s1) := spanDigits (rest.dropWhile pySpace)
      if ds ≠ [] && ds.length ≤ 6 then
        match s1.dropWhile pySpace with
        | sep :: s2 =>
          if sep = ',' || sep = ';' then
            let (hs, s3) := spanDigits (s2.dropWhile pySpace)
            if hs ≠ [] && hs.length ≤ 2 then
              match s3 with
              | sep2 :: m1 :: m2 :: sep3 :: t1 :: t2 :: _ =>
                if (sep2 = ':' || sep2 = ';') && digitCh m1 && digitCh m2 &&
                   (sep3 = ':' || sep3 = ';') && digitCh t1 && digitCh t2 then
                  some (digitsToNat ds, digitsToNat hs,
                        digitsToNat [m1, m2], digitsToNat [t1, t2])
                else none
              | _ => none
            else none
          else none
        | [] => none
      else none
    else none
  | _ => none

/-- `_CANON_RE.search`: try the anchored match at every position, leftmost
first, as Python `re.search` does. -/
def canonSearch : Str → Option (Nat × Nat × Nat × Nat)
  | [] => none
  | c :: rest =>
    match matchCanonAt (c :: rest) with
    | some t => some t
    | none => canonSearch rest

/-- The canonical key string for a parsed `(day, hour, minute, second)` tuple:
`f"d{day}-t{hh:02d}{mm:02d}{ss:02d}"` with the groups already converted by
`int` (the conversion of a pure digit group never raises, so the
`try/except` in the source is dead on the matched groups). -/
def canonKey (t : Nat × Nat × Nat × Nat) : Str :=
  'd' :: natDigits t.1 ++ '-' :: 't' :: (pad2 t.2.1 ++ pad2 t.2.2.1 ++ pad2 t.2.2.2)

/-- `watcher.header_key_from_text`: `None` for empty text or when
`_CANON_RE` does not match; otherwise the canonical day/time key. -/
def header_key_from_text (text : Str) : Option Str :=
  if text = [] then none
  else
    match canonSearch text with
    | none => none
    | some t => some (canonKey t)

/-- `watcher.header_key_from_line`: lowercase, strip every character outside
`[a-z0-9:;]`, truncate to 64 characters, defaulting to `"nokey"`. -/
def header_key_from_line (line_text : Str) : Str :=
  let s := ((lowerStr line_text).filter
    (fun c => ( 'a' ≤ c && c ≤ 'z') || digitCh c || c = ':' || c = ';')).take 64
  if s = [] then ('n' :: 'o' :: 'k' :: 'e' :: 'y' :: []) else s

/-!
### watcher.py — header regex compilation and entry segmentation
-/

/-- Anchored match of the body of the default header pattern
`day\s*\d\x7b1,6\x7d\s*,\s*\d\x7b1,2\x7d[:;]\d\x7b2\x7d[:;]\d\x7b2\x7d\s*[:;]?`
(case-insensitive; the trailing `\s*[:;]?` can match the empty string and
therefore never blocks a match). -/
def dayHeaderAt (s : Str) : Bool :=
  match s with
  | c1 :: c2 :: c3 :: rest =>
    if c1.toLower = 'd' && c2.toLower = 'a' && c3.toLower = 'y' then
      let (ds, s1) := spanDigits (rest.dropWhile pySpace)
      if ds ≠ [] && ds.length ≤ 6 then
        match s1.dropWhile pySpace with
        | ',' :: s2 =>
          let (hs, s3) := spanDigits (s2.dropWhile pySpace)
          if hs ≠ [] && hs.length ≤ 2 then
            match s3 with
            | sep2 :: m1 :: m2 :: sep3 :: t1 :: t2 :: _ =>
              (sep2 = ':' || sep2 = ';') && digitCh m1 && digitCh m2 &&
              (sep3 = ':' || sep3 = ';') && digitCh t1 && digitCh t2
            | _ => false
          else false
        | _ => false
      else false
    else false
  | _ => false

/-- Anchored match of the degenerate fallback pattern `(?i)\bday\b`:
the word `day` followed by a non-word character or the end of text. -/
def dayWordAt (s : Str) : Bool :=
  match s with
  | c1 :: c2 :: c3 :: rest =>
    c1.toLower = 'd' && c2.toLower = 'a' && c3.toLower = 'y' &&
    (match rest with | [] => true | c4 :: _ => !wordCh c4)
  | _ => false

/-- Regex search for a pattern opening with the boundary `\b` followed by a
word character: try every position left to right, a position being eligible
when its predecessor is absent or a non-word character. -/
def bsearchFrom (matchAt : Str → Bool) : Option Char → Str → Bool
  | _, [] => false
  | prev, c :: rest =>
    ((match prev with | none => true | some p => !wordCh p) && matchAt (c :: rest))
    || bsearchFrom matchAt (some c) rest

/-- Search function of the compiled default header pattern. -/
def defaultHeaderSearch (s : Str) : Bool := bsearchFrom dayHeaderAt none s

/-- Search function of the compiled degenerate pattern `(?i)\bday\b`. -/
def degenerateDaySearch (s : Str) : Bool := bsearchFrom dayWordAt none s

/-- A configured trigger (`cfg["triggers"][i]`, a dict).  Absent keys are
`none`; `pfx` and `sfx` stand for the dict keys `prefix` and `suffix`. -/
structure Trigger where
  name : Str := []
  ttype : Option Str := none
  tmatch : Option Str := none
  mention_mode : Option Str := none
  mention_custom : Option Str := none
  pfx : Str := []
  sfx : Str := []
deriving DecidableEq

/-- The configuration keys consumed by the functions under verification;
a `none` field is an absent dict key, so `cfg.get(key, default)` is
`Option.getD`. -/
structure Config where
  entry_header_regex : Option Str := none
  entry_bbox_pad_lr : Option Int := none
  entry_bbox_pad_v : Option Int := none
  entry_max_height_px : Option Int := none
  triggers : Option (List Trigger) := none
deriving DecidableEq

/-- The default value of `cfg.get("entry_header_regex", ...)` in
`compile_header_regex`. -/
def defaultHeaderPattern : Str :=
  ("(?i)\\bday\\s*\\d\x7b1,6\x7d\\s*,\\s*\\d\x7b1,2\x7d[:;]\\d\x7b2\x7d[:;]\\d\x7b2\x7d\\s*[:;]?").data

/-- `watcher.compile_header_regex`.  The Python `re` module is an external
collaborator, modelled by the parameter `compile`: it returns the search
function of a compiled pattern, or `none` when `re.compile` raises
`re.error`.  The `try/except` of the source becomes the `match`: a malformed
pattern falls back to the degenerate `(?i)\bday\b` matcher. -/
def compile_header_regex (compile : Str → Option (Str → Bool)) (cfg : Config) :
    Str → Bool :=
  let pat := cfg.entry_header_regex.getD defaultHeaderPattern
  match compile pat with
  | some p => p
  | none => degenerateDaySearch

/-- A concrete instance of the `compile` collaborator knowing exactly the
default header pattern, used to run the model on concrete inputs. -/
def modelReCompile : Str → Option (Str → Bool) :=
  fun pat => if pat = defaultHeaderPattern then some defaultHeaderSearch else none

/-- An OCR line as produced by `ocr._lines_from_tsv`: text, median
confidence, bounding box `(x, y, w, h)`. -/
structure Line where
  text : Str
  conf : ℚ
  bbox : Int × Int × Int × Int
deriving DecidableEq

/-- x coordinate of a line box (`bbox[0]`). -/
def lx (ln : Line) : Int := ln.bbox.1

/-- y coordinate of a line box (`bbox[1]`). -/
def ly (ln : Line) : Int := ln.bbox.2.1

/-- The sort key `lambda z: (z["bbox"][1], z["bbox"][0])` of the source,
as the lexicographic order on `(y, x)`. -/
def lineLE (a b : Line) : Prop :=
  ly a < ly b ∨ (ly a = ly b ∧ lx a ≤ lx b)

instance : DecidableRel lineLE := fun a b => by unfold lineLE; infer_instance

instance : IsTotal Line lineLE := by
  constructor; intro a b; unfold lineLE; omega

instance : IsTrans Line lineLE := by
  constructor; intro a b c; unfold lineLE; omega

/-- An entry produced by `watcher.parse_entries_from_lines`. -/
structure Entry where
  bbox : Int × Int × Int × Int
  header_text : Str
  header_bbox : Int × Int × Int × Int
deriving DecidableEq

/-- The entry built for one header line in the loop body of
`parse_entries_from_lines`, given the y coordinate `next_y` of the next
header (or the frame height past the last one). -/
def mkEntry (img_h img_w pad_lr pad_v cap_h next_y : Int) (ln : Line) : Entry :=
  let hy := ly ln
  let y0 := max 0 (hy - pad_v)
  let y1 := min img_h (min next_y (hy + cap_h) + pad_v)
  let x0 := 0 + pad_lr
  let x1 := max 1 (img_w - pad_lr)
  { bbox := (x0, y0, max 1 (x1 - x0), max 1 (y1 - y0)),
    header_text := ln.text, header_bbox := ln.bbox }

/-- The `for h_i, idx in enumerate(hdr_idxs)` loop of
`parse_entries_from_lines`.  The running pair is `(idx, all_lines[idx])`
from the enumerated header comprehension; the lookup
`all_lines[hdr_idxs[h_i + 1]]` of the successor header is the head of the
remaining list, or `img_h` past the last header. -/
def entriesLoop (img_h img_w pad_lr pad_v cap_h : Int) :
    List (Nat × Line) → List Entry
  | [] => []
  | (_, ln) :: rest =>
    mkEntry img_h img_w pad_lr pad_v cap_h
      (match rest with | [] => img_h | (_, ln2) :: _ => ly ln2) ln ::
      entriesLoop img_h img_w pad_lr pad_v cap_h rest

/-- `watcher.parse_entries_from_lines`.  Python `sorted` is a stable sort by
the `(y, x)` key, modelled by `insertionSort lineLE`; the header index
comprehension `[i for i, ln in enumerate(all_lines) if hdr_re.search(...)]`
is the filtered enumeration, kept as pairs so that the source lookup
`all_lines[idx]` is the second component. -/
def parse_entries_from_lines (compile : Str → Option (Str → Bool))
    (lines : List Line) (img_h img_w : Int) (cfg : Config) : List Entry :=
  let hdr_re := compile_header_regex compile cfg
  let all_lines := List.insertionSort lineLE lines
  let hdr_pairs := all_lines.enum.filter (fun p => hdr_re p.2.text)
  if hdr_pairs = [] then []
  else
    let pad_lr := cfg.entry_bbox_pad_lr.getD 4
    let pad_v := cfg.entry_bbox_pad_v.getD 0
    let cap_h := cfg.entry_max_height_px.getD 360
    entriesLoop img_h img_w pad_lr pad_v cap_h hdr_pairs

/-- The vertical span `[y, y + h)` actually covered by an entry box. -/
def espan (e : Entry) : Int × Int := (e.bbox.2.1, e.bbox.2.1 + e.bbox.2.2.2)

/-!
### Claims C1, C2, C9
-/

/-- Claim C1: any two texts in which the canonical timestamp pattern
resolves to the same numeric `(day, hour, minute, second)` tuple receive
the same key from `header_key_from_text`. -/
theorem c1_header_key_canonicalization (t1 t2 : Str)
    (tup : Nat × Nat × Nat × Nat)
    (h1 : canonSearch t1 = some tup) (h2 : canonSearch t2 = some tup) :
    header_key_from_text t1 = header_key_from_text t2 := by
  have e1 : t1 ≠ [] := by rintro rfl; simp [canonSearch] at h1
  have e2 : t2 ≠ [] := by rintro rfl; simp [canonSearch] at h2
  simp [header_key_from_text, e1, e2, h1, h2]

/-- Witness for C1 at the two example texts of the claim: both parse to
`(45, 13, 7, 2)` and canonicalize to the key `d45-t130702`. -/
theorem c1_witness :
    canonSearch ("Day 45, 13:07:02: Tribemember Bob was killed!").data
      = some (45, 13, 7, 2) ∧
    canonSearch ("Day  45 ,  13;07;02  Tribemember B0b was killed").data
      = some (45, 13, 7, 2) ∧
    header_key_from_text ("Day 45, 13:07:02: Tribemember Bob was killed!").data
      = header_key_from_text ("Day  45 ,  13;07;02  Tribemember B0b was killed").data ∧
    header_key_from_text ("Day 45, 13:07:02: Tribemember Bob was killed!").data
      = some ("d45-t130702").data :=
  ⟨by decide, by decide,
   c1_header_key_canonicalization _ _ (45, 13, 7, 2) (by decide) (by decide),
   by decide⟩

/-- The concrete frame of claim C2: three header lines at `y = 0, 100, 250`
in a frame of height 400, `entry_max_height_px = 120`, `entry_bbox_pad_v = 0`. -/
def c2Lines : List Line :=
  [ { text := ("Day 1, 00:00:01").data, conf := 0, bbox := (0, 0, 50, 10) },
    { text := ("Day 1, 00:00:02").data, conf := 0, bbox := (0, 100, 50, 10) },
    { text := ("Day 1, 00:00:03").data, conf := 0, bbox := (0, 250, 50, 10) } ]

/-- The configuration of claim C2. -/
def c2Cfg : Config :=
  { entry_bbox_pad_v := some 0, entry_max_height_px := some 120 }

/-- Counterexample to claim C2 as stated: the third entry does not span
`[250, 400)` — the cap `headerY + maxHeight = 370` also clamps the last
entry, whose span the code computes as `[250, 370)`. -/
theorem c2_counterexample :
    ¬ ((parse_entries_from_lines modelReCompile c2Lines 400 400 c2Cfg).map espan
        = [(0, 100), (100, 220), (250, 400)]) := by
  decide

/-- Claim C2 as amended: with headers at `y = 0, 100, 250`, frame height
400, `maxHeight = 120` and `padV = 0`, the segmenter produces exactly three
entries spanning `[0, 100)`, `[100, 220)` and `[250, 370)` — the last span
is clamped by `maxHeight`, not by the frame bottom. -/
theorem c2_segmentation_spans :
    (parse_entries_from_lines modelReCompile c2Lines 400 400 c2Cfg).map espan
      = [(0, 100), (100, 220), (250, 370)] := by
  decide

/-- Claim C9: compiling the configured header pattern is total — when the
external `re.compile` succeeds on the configured (or default) pattern the
compiled search is used, and when it raises the degenerate `(?i)\bday\b`
search is returned instead of an error. -/
theorem c9_header_regex_fallback (compile : Str → Option (Str → Bool))
    (cfg : Config) :
    (∀ f, compile (cfg.entry_header_regex.getD defaultHeaderPattern) = some f →
      compile_header_regex compile cfg = f) ∧
    (compile (cfg.entry_header_regex.getD defaultHeaderPattern) = none →
      compile_header_regex compile cfg = degenerateDaySearch) := by
  constructor
  · intro f h; simp [compile_header_regex, h]
  · intro h; simp [compile_header_regex, h]

/-- Witness for C9: a compile collaborator that succeeds yields its compiled
search, one that always raises yields the degenerate day matcher. -/
theorem c9_witness :
    compile_header_regex (fun _ => some defaultHeaderSearch) {} = defaultHeaderSearch ∧
    compile_header_regex (fun _ => none) {} = degenerateDaySearch :=
  ⟨(c9_header_regex_fallback (fun _ => some defaultHeaderSearch) {}).1
      defaultHeaderSearch rfl,
   (c9_header_regex_fallback (fun _ => none) {}).2 rfl⟩

/-!
### Claim C5 — general segmentation spans
-/

/-- The header lines of a frame: the lines, in the sorted order used by the
segmenter, whose text the compiled header pattern matches. -/
def headerLines (compile : Str → Option (Str → Bool)) (cfg : Config)
    (lines : List Line) : List Line :=
  (List.insertionSort lineLE lines).filter
    (fun ln => compile_header_regex compile cfg ln.text)

/-- The y coordinate bounding entry `i` from below the next header: the next
header line y, or the frame height after the last header. -/
def nextHeaderY (img_h : Int) (hl : List Line) (i : Nat) : Int :=
  match hl[i + 1]? with
  | some l2 => ly l2
  | none => img_h

theorem entriesLoop_length (h w plr pv ch : Int) :
    ∀ ps : List (Nat × Line), (entriesLoop h w plr pv ch ps).length = ps.length
  | [] => rfl
  | _ :: rest => by
    simp [entriesLoop, entriesLoop_length h w plr pv ch rest]

theorem entriesLoop_getElem (h w plr pv ch : Int) :
    ∀ (ps : List (Nat × Line)) (i : Nat),
    (entriesLoop h w plr pv ch ps)[i]? =
      (ps[i]?).map (fun p => mkEntry h w plr pv ch
        (match ps[i + 1]? with | some q => ly q.2 | none => h) p.2)
  | [], i => by simp [entriesLoop]
  | p :: rest, 0 => by cases rest <;> simp [entriesLoop]
  | p :: rest, i + 1 => by
    simpa [entriesLoop] using entriesLoop_getElem h w plr pv ch rest i

theorem enumFrom_filter_map_snd {α : Type _} (q : α → Bool) :
    ∀ (n : Nat) (l : List α),
    ((List.enumFrom n l).filter (fun p => q p.2)).map Prod.snd = l.filter q
  | _, [] => rfl
  | n, a :: l => by
    by_cases h : q a <;>
      simp [List.enumFrom, List.filter_cons, h, enumFrom_filter_map_snd q (n + 1) l]

/-- Claim C5 as amended: entries correspond one to one, in order, to the
header lines; the entry for header `i` starts at `max(0, headerY - padV)`,
and whenever the upper bound
`min(frameHeight, min(nextHeaderY, headerY + maxHeight) + padV)` lies
strictly above the start, the entry ends exactly there.  (When the bound
does not exceed the start, the stored box height is floored at 1, which is
what the counterexample exhibits.)  With no header line, the result is
empty. -/
theorem c5_entry_spans (compile : Str → Option (Str → Bool)) (cfg : Config)
    (lines : List Line) (img_h img_w : Int) :
    (headerLines compile cfg lines = [] →
      parse_entries_from_lines compile lines img_h img_w cfg = []) ∧
    (parse_entries_from_lines compile lines img_h img_w cfg).length =
      (headerLines compile cfg lines).length ∧
    (∀ i e hln,
      (parse_entries_from_lines compile lines img_h img_w cfg)[i]? = some e →
      (headerLines compile cfg lines)[i]? = some hln →
      (espan e).1 = max 0 (ly hln - cfg.entry_bbox_pad_v.getD 0) ∧
      (max 0 (ly hln - cfg.entry_bbox_pad_v.getD 0) <
          min img_h (min (nextHeaderY img_h (headerLines compile cfg lines) i)
            (ly hln + cfg.entry_max_height_px.getD 360) +
            cfg.entry_bbox_pad_v.getD 0) →
        (espan e).2 =
          min img_h (min (nextHeaderY img_h (headerLines compile cfg lines) i)
            (ly hln + cfg.entry_max_height_px.getD 360) +
            cfg.entry_bbox_pad_v.getD 0))) := by
  have hmap : (((List.insertionSort lineLE lines).enum.filter
      (fun p => compile_header_regex compile cfg p.2.text)).map Prod.snd) =
      headerLines compile cfg lines := by
    unfold headerLines List.enum
    exact enumFrom_filter_map_snd
      (fun ln => compile_header_regex compile cfg ln.text) 0
      (List.insertionSort lineLE lines)
  have hidx : ∀ j : Nat, (headerLines compile cfg lines)[j]? =
      (((List.insertionSort lineLE lines).enum.filter
        (fun p => compile_header_regex compile cfg p.2.text))[j]?).map Prod.snd := by
    intro j
    rw [← hmap]
    exact List.getElem?_map ..
  by_cases hemp : ((List.insertionSort lineLE lines).enum.filter
      (fun p => compile_header_regex compile cfg p.2.text)) = []
  · have hparse : parse_entries_from_lines compile lines img_h img_w cfg = [] := by
      unfold parse_entries_from_lines
      simp [hemp]
    have hhl : headerLines compile cfg lines = [] := by
      rw [← hmap, hemp]; rfl
    refine ⟨fun _ => hparse, ?_, ?_⟩
    · rw [hparse, hhl]; rfl
    · intro i e hln he _
      rw [hparse] at he; simp at he
  · have hparse : parse_entries_from_lines compile lines img_h img_w cfg =
        entriesLoop img_h img_w (cfg.entry_bbox_pad_lr.getD 4)
          (cfg.entry_bbox_pad_v.getD 0) (cfg.entry_max_height_px.getD 360)
          ((List.insertionSort lineLE lines).enum.filter
            (fun p => compile_header_regex compile cfg p.2.text)) := by
      unfold parse_entries_from_lines
      simp [hemp]
    refine ⟨?_, ?_, ?_⟩
    · intro hhl
      have : ((List.insertionSort lineLE lines).enum.filter
          (fun p => compile_header_regex compile cfg p.2.text)).length = 0 := by
        have := congrArg List.length hmap
        simpa [hhl] using this
      exact absurd (List.eq_nil_of_length_eq_zero this) hemp
    · rw [hparse, entriesLoop_length, ← hmap, List.length_map]
    · intro i e hln he hh
      rw [hparse, entriesLoop_getElem] at he
      rw [hidx] at hh
      cases hp : ((List.insertionSort lineLE lines).enum.filter
          (fun p => compile_header_regex compile cfg p.2.text))[i]? with
      | none => rw [hp] at he; simp at he
      | some p =>
        rw [hp] at he hh
        simp only [Option.map_some'] at he hh
        have hsnd : p.2 = hln := by simpa using hh
        have hnext : (match ((List.insertionSort lineLE lines).enum.filter
            (fun p => compile_header_regex compile cfg p.2.text))[i + 1]? with
            | some q => ly q.2 | none => img_h) =
            nextHeaderY img_h (headerLines compile cfg lines) i := by
          unfold nextHeaderY
          rw [hidx (i + 1)]
          cases ((List.insertionSort lineLE lines).enum.filter
            (fun p => compile_header_regex compile cfg p.2.text))[i + 1]? <;> simp
        rw [hnext, hsnd] at he
        have he2 : e = mkEntry img_h img_w (cfg.entry_bbox_pad_lr.getD 4)
            (cfg.entry_bbox_pad_v.getD 0) (cfg.entry_max_height_px.getD 360)
            (nextHeaderY img_h (headerLines compile cfg lines) i) hln := by
          exact (Option.some_inj.mp he).symm
        subst he2
        constructor
        · simp [mkEntry, espan]
        · intro hlt
          simp only [mkEntry, espan]
          omega

/-- Counterexample to claim C5 as stated: with `maxHeight = 0`, `padV = 0`
and a single header at `y = 5` in a frame of height 400, the claimed span
formula ends the entry at `min(400, min(400, 5 + 0) + 0) = 5`, i.e. the
span would be `[5, 5)`; the code floors the stored box height at 1 and the
entry actually spans `[5, 6)`. -/
theorem c5_counterexample :
    ¬ ((parse_entries_from_lines modelReCompile
        [{ text := ("Day 1, 00:00:01").data, conf := 0, bbox := (0, 5, 50, 10) }]
        400 400
        { entry_bbox_pad_v := some 0, entry_max_height_px := some 0 }).map espan
      = [(5, 5)]) ∧
    (parse_entries_from_lines modelReCompile
        [{ text := ("Day 1, 00:00:01").data, conf := 0, bbox := (0, 5, 50, 10) }]
        400 400
        { entry_bbox_pad_v := some 0, entry_max_height_px := some 0 }).map espan
      = [(5, 6)] := by
  constructor <;> decide

/-- Witness for C5 at the C2 frame: the first entry starts at 0 and, the
bound 100 being above the start, ends at 100. -/
theorem c5_witness :
    ∃ e, (parse_entries_from_lines modelReCompile c2Lines 400 400 c2Cfg)[0]? = some e ∧
      (espan e).1 = 0 ∧ (espan e).2 = 100 := by
  refine ⟨{ bbox := (4, 0, 392, 100),
            header_text := ("Day 1, 00:00:01").data,
            header_bbox := (0, 0, 50, 10) }, by decide, ?_⟩
  have h := (c5_entry_spans modelReCompile c2Cfg c2Lines 400 400).2.2 0
    { bbox := (4, 0, 392, 100),
      header_text := ("Day 1, 00:00:01").data,
      header_bbox := (0, 0, 50, 10) }
    { text := ("Day 1, 00:00:01").data, conf := 0, bbox := (0, 0, 50, 10) }
    (by decide) (by decide)
  refine ⟨?_, ?_⟩
  · rw [h.1]; decide
  · have hn : nextHeaderY 400 (headerLines modelReCompile c2Cfg c2Lines) 0 = 100 := by
      decide
    have h2 := h.2
    rw [hn] at h2
    rw [h2 (by decide)]; decide

/-!
### ocr.py — TSV word grouping (`_lines_from_tsv`)
-/

/-- One row of the Tesseract TSV dictionary (index `i` of the parallel
arrays).  `confVal` models `int(float(tsv["conf"][i]))`: `some` the parsed
value, `none` when the conversion raises and the source falls back to -1. -/
structure TsvRow where
  text : Str
  confVal : Option Int
  left : Int
  top : Int
  width : Int
  height : Int
  page_num : Int
  block_num : Int
  par_num : Int
  line_num : Int
  word_num : Int
deriving DecidableEq

/-- A surviving word dict appended by the collection loop. -/
structure Word where
  page : Int
  block : Int
  par : Int
  line : Int
  word : Int
  text : Str
  conf : Int
  bbox : Int × Int × Int × Int
deriving DecidableEq

/-- The word dict built from a TSV row: stripped text, parsed confidence
(-1 on conversion failure), box `(left, top, width, height)`. -/
def mkWordOf (r : TsvRow) : Word :=
  { page := r.page_num, block := r.block_num, par := r.par_num,
    line := r.line_num, word := r.word_num,
    text := strip r.text, conf := r.confVal.getD (-1),
    bbox := (r.left, r.top, r.width, r.height) }

/-- Body of the word-collection loop of `_lines_from_tsv`: skip rows with
empty stripped text, skip rows whose confidence is below the threshold,
keep the rest. -/
def rowKeep (min_word_conf : Int) (r : TsvRow) : Option Word :=
  if strip r.text = [] then none
  else if r.confVal.getD (-1) < min_word_conf then none
  else some (mkWordOf r)

/-- The `words` list built by the collection loop over all TSV rows. -/
def tsvWords (min_word_conf : Int) (rows : List TsvRow) : List Word :=
  rows.filterMap (rowKeep min_word_conf)

/-- The grouping key `(page, block, par, line)`. -/
def wkey (w : Word) : Int × Int × Int × Int := (w.page, w.block, w.par, w.line)

/-- The full structural identity `(page, block, par, line, word)` of a word. -/
def wkey5 (w : Word) : (Int × Int × Int × Int) × Int := (wkey w, w.word)

/-- Key iteration order of a Python dict filled by
`groups.setdefault(key, []).append(w)`: each key at its first occurrence. -/
def firstKeys {κ : Type _} [DecidableEq κ] : List κ → List κ
  | [] => []
  | k :: rest => k :: (firstKeys rest).filter (fun x => x ≠ k)

/-- The within-group sort key `lambda z: z["word"]`. -/
def wordLE (a b : Word) : Prop := a.word ≤ b.word

instance : DecidableRel wordLE := fun a b => by unfold wordLE; infer_instance

instance : IsTotal Word wordLE := by
  constructor; intro a b; unfold wordLE; omega

instance : IsTrans Word wordLE := by
  constructor; intro a b c; unfold wordLE; omega

/-- Python `" ".join`. -/
def joinSpace : List Str → Str
  | [] => []
  | [t] => t
  | t :: rest => t ++ ' ' :: joinSpace rest

/-- Python `min` over a non-empty integer list (defaulting to 0 on the
empty list, which the source never reaches). -/
def intMin : List Int → Int
  | [] => 0
  | x :: xs => xs.foldl min x

/-- Python `max` over a non-empty integer list. -/
def intMax : List Int → Int
  | [] => 0
  | x :: xs => xs.foldl max x

/-- `numpy.median` on a non-empty integer list, as an exact rational:
sort ascending, take the middle element, or the mean of the two middle
elements for an even length. -/
def medianInt (l : List Int) : ℚ :=
  let s := List.insertionSort (fun (a b : Int) => a ≤ b) l
  let n := s.length
  if n % 2 = 1 then ((s.getD (n / 2) 0 : Int) : ℚ)
  else (((s.getD (n / 2 - 1) 0 : Int) : ℚ) + ((s.getD (n / 2) 0 : Int) : ℚ)) / 2

/-- The line dict built from one already-sorted group `arr`: space-joined
texts, median of the non-negative confidences (0 when none), and the
bounding union box with width and height floored at 1. -/
def lineCore (arr : List Word) : Line :=
  let text := joinSpace (arr.map (fun a => a.text))
  let confs := (arr.filter (fun a => a.conf ≥ 0)).map (fun a => a.conf)
  let conf : ℚ := if confs = [] then 0 else medianInt confs
  let x0 := intMin (arr.map (fun a => a.bbox.1))
  let y0 := intMin (arr.map (fun a => a.bbox.2.1))
  let x1 := intMax (arr.map (fun a => a.bbox.1 + a.bbox.2.2.1))
  let y1 := intMax (arr.map (fun a => a.bbox.2.1 + a.bbox.2.2.2))
  { text := text, conf := conf,
    bbox := (x0, y0, max 1 (x1 - x0), max 1 (y1 - y0)) }

/-- One group: `arr.sort(key=word)` (a stable sort, so `insertionSort` by
the non-strict key order) followed by the line construction. -/
def lineOfGroup (arr : List Word) : Line :=
  lineCore (List.insertionSort wordLE arr)

/-- `ocr._lines_from_tsv`: collect surviving words, return `[]` when none
survive, group by `(page, block, par, line)` in dict insertion order, build
one line per group, and stably sort the lines by `(box.y, box.x)`. -/
def lines_from_tsv (min_word_conf : Int) (rows : List TsvRow) : List Line :=
  let words := tsvWords min_word_conf rows
  if words = [] then []
  else
    let ls := (firstKeys (words.map wkey)).map
      (fun k => lineOfGroup (words.filter (fun w => wkey w = k)))
    List.insertionSort lineLE ls

/-- A TSV row with fixed structural indices and box, used for concrete word
filtering and grouping inputs. -/
def sampleRow (t : Str) (c : Option Int) : TsvRow :=
  { text := t, confVal := c, left := 0, top := 0, width := 5, height := 5,
    page_num := 1, block_num := 1, par_num := 1, line_num := 1, word_num := 1 }

/-!
### Claim C3 — confidence filtering
-/

/-- Counterexample to claim C3 as stated: a word with unknown confidence
(-1) and non-empty text is dropped at threshold 0, because the code
compares `conf < min_word_conf` uniformly with no special case for -1; so
a word of confidence -1 is not kept regardless of the threshold. -/
theorem c3_counterexample :
    strip ("hello").data ≠ [] ∧
    tsvWords 0 [sampleRow ("hello").data (some (-1))] = [] := by
  constructor <;> decide

/-- Claim C3 as amended: the collection loop keeps a word exactly when its
trimmed text is non-empty and its confidence (parsed value, or -1 when the
conversion fails) is at least the threshold.  Confidence 0 at threshold 0
is kept and confidence 5 at threshold 10 is dropped, as claimed, but
confidence -1 is kept only for thresholds at most -1. -/
theorem c3_confidence_filtering (m : Int) (r : TsvRow) (rest : List TsvRow) :
    tsvWords m (r :: rest) =
      (if strip r.text ≠ [] ∧ m ≤ r.confVal.getD (-1) then [mkWordOf r] else [])
        ++ tsvWords m rest := by
  unfold tsvWords
  rw [List.filterMap_cons]
  unfold rowKeep
  by_cases h1 : strip r.text = []
  · simp [h1]
  · by_cases h2 : r.confVal.getD (-1) < m
    · have h3 : ¬ (strip r.text ≠ [] ∧ m ≤ r.confVal.getD (-1)) := by
        intro hc; omega
      simp [h1, h2, h3]
    · have h3 : strip r.text ≠ [] ∧ m ≤ r.confVal.getD (-1) := ⟨h1, by omega⟩
      simp [h1, h2, h3]

/-- Witness for C3 (amended): confidence 0 at threshold 0 kept, confidence
5 at threshold 10 dropped, confidence -1 dropped at threshold 0 and kept at
threshold -1. -/
theorem c3_witness :
    tsvWords 0 [sampleRow ("ok").data (some 0)]
      = [mkWordOf (sampleRow ("ok").data (some 0))] ∧
    tsvWords 10 [sampleRow ("ok").data (some 5)] = [] ∧
    tsvWords 0 [sampleRow ("ok").data (some (-1))] = [] ∧
    tsvWords (-1) [sampleRow ("ok").data (some (-1))]
      = [mkWordOf (sampleRow ("ok").data (some (-1)))] := by
  refine ⟨?_, ?_, ?_, ?_⟩ <;> (rw [c3_confidence_filtering]; decide)

/-!
### Claim C7 — grouping stability under input permutation
-/

theorem mem_firstKeys {κ : Type _} [DecidableEq κ] (x : κ) :
    ∀ l : List κ, x ∈ firstKeys l ↔ x ∈ l
  | [] => Iff.rfl
  | k :: rest => by
    by_cases hx : x = k
    · subst hx; simp [firstKeys]
    · simp [firstKeys, hx, mem_firstKeys x rest]

theorem nodup_firstKeys {κ : Type _} [DecidableEq κ] :
    ∀ l : List κ, (firstKeys l).Nodup
  | [] => List.nodup_nil
  | k :: rest => by
    rw [firstKeys]
    refine List.nodup_cons.mpr ⟨?_, (nodup_firstKeys rest).filter _⟩
    intro hmem
    have h2 := (List.mem_filter.mp hmem).2
    simp at h2

/-- Counterexample to claim C7 as stated: two words sharing all five
structural indices `(page, block, par, line, word)` but with different
texts land in the same group with a tied sort key; the Python stable sort
keeps them in input order, so transposing the input changes the joined
line text.  The two inputs are permutations preserving every field. -/
theorem c7_counterexample :
    (List.Perm
      [sampleRow ("bb").data (some 90), sampleRow ("aa").data (some 90)]
      [sampleRow ("aa").data (some 90), sampleRow ("bb").data (some 90)]) ∧
    ¬ (lines_from_tsv 0
        [sampleRow ("bb").data (some 90), sampleRow ("aa").data (some 90)] =
       lines_from_tsv 0
        [sampleRow ("aa").data (some 90), sampleRow ("bb").data (some 90)]) := by
  constructor <;> decide

/-- Claim C7 as amended: if the surviving words carry pairwise-distinct
`(page, block, par, line, word)` tuples and the produced lines sit at
pairwise-distinct `(box.y, box.x)` positions, then every permutation of
the input rows yields the identical ordered line list.  (The
counterexample shows the tuple-distinctness cannot be dropped; a tied
`(y, x)` between two groups likewise leaves the final stable sort to the
dict insertion order, which input order determines.) -/
theorem c7_grouping_stability (m : Int) (rows rows2 : List TsvRow)
    (hperm : rows2.Perm rows)
    (h5 : ((tsvWords m rows).map wkey5).Nodup)
    (hyx : ((lines_from_tsv m rows).map (fun l => (ly l, lx l))).Nodup) :
    lines_from_tsv m rows2 = lines_from_tsv m rows := by
  have hw : (tsvWords m rows2).Perm (tsvWords m rows) := hperm.filterMap _
  by_cases hnil : tsvWords m rows = []
  · have hnil2 : tsvWords m rows2 = [] := by
      rw [hnil] at hw; exact hw.eq_nil
    unfold lines_from_tsv
    rw [hnil, hnil2]
  · have hnil2 : tsvWords m rows2 ≠ [] := by
      intro h; rw [h] at hw; exact hnil hw.symm.eq_nil
    have hside : ∀ rs : List TsvRow, tsvWords m rs ≠ [] →
        lines_from_tsv m rs = List.insertionSort lineLE
          ((firstKeys ((tsvWords m rs).map wkey)).map
            (fun k => lineOfGroup ((tsvWords m rs).filter (fun w => wkey w = k)))) := by
      intro rs h
      unfold lines_from_tsv
      simp [h]
    rw [hside rows2 hnil2, hside rows hnil]
    rw [hside rows hnil] at hyx
    have hinj := List.inj_on_of_nodup_map h5
    have hgroup : ∀ k, List.insertionSort wordLE
        ((tsvWords m rows2).filter (fun w => wkey w = k)) =
        List.insertionSort wordLE ((tsvWords m rows).filter (fun w => wkey w = k)) := by
      intro k
      have hp : (List.insertionSort wordLE
          ((tsvWords m rows2).filter (fun w => wkey w = k))).Perm
          (List.insertionSort wordLE ((tsvWords m rows).filter (fun w => wkey w = k))) :=
        (List.perm_insertionSort _ _).trans
          ((hw.filter _).trans (List.perm_insertionSort _ _).symm)
      refine @List.Perm.eq_of_sorted _ wordLE _ _ ?_
        (List.sorted_insertionSort _ _) (List.sorted_insertionSort _ _) hp
      intro a b ha hb hab hba
      have ha2 : a ∈ (tsvWords m rows2).filter (fun w => wkey w = k) :=
        (List.mem_insertionSort (r := wordLE)).mp ha
      have hb2 : b ∈ (tsvWords m rows).filter (fun w => wkey w = k) :=
        (List.mem_insertionSort (r := wordLE)).mp hb
      have haW : a ∈ tsvWords m rows := hw.mem_iff.mp (List.mem_filter.mp ha2).1
      have hbW : b ∈ tsvWords m rows := (List.mem_filter.mp hb2).1
      have hka : wkey a = k := by
        have := (List.mem_filter.mp ha2).2; simpa using this
      have hkb : wkey b = k := by
        have := (List.mem_filter.mp hb2).2; simpa using this
      have hword : a.word = b.word := by
        unfold wordLE at hab hba; omega
      exact hinj haW hbW (by rw [wkey5, wkey5, hka, hkb, hword])
    have hlines : ((firstKeys ((tsvWords m rows2).map wkey)).map
        (fun k => lineOfGroup ((tsvWords m rows2).filter (fun w => wkey w = k)))) =
        ((firstKeys ((tsvWords m rows2).map wkey)).map
          (fun k => lineOfGroup ((tsvWords m rows).filter (fun w => wkey w = k)))) := by
      apply List.map_congr_left
      intro k _
      unfold lineOfGroup
      rw [hgroup k]
    rw [hlines]
    have hkeys : (firstKeys ((tsvWords m rows2).map wkey)).Perm
        (firstKeys ((tsvWords m rows).map wkey)) := by
      apply (List.perm_ext_iff_of_nodup (nodup_firstKeys _) (nodup_firstKeys _)).mpr
      intro k
      rw [mem_firstKeys, mem_firstKeys]
      exact (hw.map wkey).mem_iff
    have hlp : ((firstKeys ((tsvWords m rows2).map wkey)).map
        (fun k => lineOfGroup ((tsvWords m rows).filter (fun w => wkey w = k)))).Perm
        ((firstKeys ((tsvWords m rows).map wkey)).map
          (fun k => lineOfGroup ((tsvWords m rows).filter (fun w => wkey w = k)))) :=
      hkeys.map _
    have hinj2 := List.inj_on_of_nodup_map hyx
    refine @List.Perm.eq_of_sorted _ lineLE _ _ ?_
      (List.sorted_insertionSort _ _) (List.sorted_insertionSort _ _)
      ((List.perm_insertionSort _ _).trans (hlp.trans (List.perm_insertionSort _ _).symm))
    intro a b ha hb hab hba
    have haL : a ∈ List.insertionSort lineLE
        ((firstKeys ((tsvWords m rows).map wkey)).map
          (fun k => lineOfGroup ((tsvWords m rows).filter (fun w => wkey w = k)))) := by
      have h1 := (List.mem_insertionSort (r := lineLE)).mp ha
      have h2 := hlp.mem_iff.mp h1
      exact (List.mem_insertionSort (r := lineLE)).mpr h2
    have hyx2 : (ly a, lx a) = (ly b, lx b) := by
      unfold lineLE at hab hba
      have h1 : ly a = ly b := by omega
      have h2 : lx a = lx b := by omega
      rw [h1, h2]
    exact hinj2 haL hb hyx2

/-- Witness for C7 (amended): two words in distinct line groups, permuted
input, identical output line list. -/
theorem c7_witness :
    lines_from_tsv 0
      [{ sampleRow ("bb").data (some 80) with line_num := 2, top := 20 },
        sampleRow ("aa").data (some 90)] =
    lines_from_tsv 0
      [sampleRow ("aa").data (some 90),
        { sampleRow ("bb").data (some 80) with line_num := 2, top := 20 }] :=
  c7_grouping_stability 0
    [sampleRow ("aa").data (some 90),
      { sampleRow ("bb").data (some 80) with line_num := 2, top := 20 }]
    [{ sampleRow ("bb").data (some 80) with line_num := 2, top := 20 },
      sampleRow ("aa").data (some 90)]
    (by decide) (by decide) (by decide)

/-!
### line_detector.py and watcher.py — trigger resolution
-/

/-- Python `x or default` on an optional string configuration value: both a
missing key and an empty string fall back to the default. -/
def pyOrStr (o : Option Str) (d : Str) : Str :=
  match o with
  | none => d
  | some s => if s = [] then d else s

/-- `(t.get("type") or "keyword").lower()`. -/
def trigType (t : Trigger) : Str := lowerStr (pyOrStr t.ttype ("keyword").data)

/-- `t.get("match") or ""`. -/
def trigPat (t : Trigger) : Str := pyOrStr t.tmatch []

/-- The keyword scan of `line_detector.match_line`: first keyword that is a
case-insensitive substring of the text. -/
def kwScan (t : Str) : List Str → Option Str
  | [] => none
  | kw :: rest =>
    if isSubstr (lowerStr kw) (lowerStr t) then some kw else kwScan t rest

/-- The regex scan of `line_detector.match_line` over the legacy patterns
compiled by `build_regexes` (malformed ones already dropped there with a
warning); each compiled pattern is carried as its pattern string paired
with its search function, since a hit reports `rg.pattern`. -/
def rgScan (t : Str) : List (Str × (Str → Bool)) → Option Str
  | [] => none
  | (pat, f) :: rest => if f t then some pat else rgScan t rest

/-- `line_detector.match_line`: strip the text, report the first matching
keyword, else the first matching legacy pattern, else no match. -/
def match_line (text : Str) (keywords : List Str)
    (regs : List (Str × (Str → Bool))) : Bool × Str :=
  let t := strip text
  match kwScan t keywords with
  | some kw => (true, kw)
  | none =>
    match rgScan t regs with
    | some pat => (true, pat)
    | none => (false, [])

/-- The trigger synthesized on a legacy match:
`dict(name="Legacy", mention_mode="none", prefix="", suffix="")`. -/
def legacyTrigger : Trigger :=
  { name := ("Legacy").data, mention_mode := some (("none").data),
    pfx := [], sfx := [] }

/-- The `for t in triggers` loop of `watcher.choose_trigger`.  The external
`re.search(pat, text, re.IGNORECASE)` call is the parameter `engine`:
`none` when the pattern is malformed (`re.error`, skipped), otherwise
`some` of whether the case-insensitive search matched.  `lower` is the
precomputed `text.lower()`. -/
def triggerScan (engine : Str → Str → Option Bool) (text lower : Str) :
    List Trigger → Option (Trigger × Str)
  | [] => none
  | t :: rest =>
    if trigPat t = [] then triggerScan engine text lower rest
    else if trigType t = ("regex").data then
      match engine (trigPat t) text with
      | some true => some (t, ("regex:").data ++ trigPat t)
      | _ => triggerScan engine text lower rest
    else
      if isSubstr (lowerStr (trigPat t)) lower then
        some (t, ("kw:").data ++ trigPat t)
      else triggerScan engine text lower rest

/-- `watcher.choose_trigger`: first matching configured trigger wins, else
the legacy keyword/pattern fallback synthesizes a minimal trigger, else no
trigger.  `legacyKws` models `load_keywords(cfg)` (configuration plus the
optional keyword file, an external input) and `legacyRegs` models
`build_regexes(cfg)`. -/
def choose_trigger (engine : Str → Str → Option Bool) (cfg : Config)
    (legacyKws : List Str) (legacyRegs : List (Str × (Str → Bool)))
    (text : Str) : Option Trigger × Option Str :=
  let triggers := cfg.triggers.getD []
  let lower := lowerStr text
  match triggerScan engine text lower triggers with
  | some (t, why) => (some t, some why)
  | none =>
    match match_line text legacyKws legacyRegs with
    | (true, why) => (some legacyTrigger, some why)
    | (false, _) => (none, none)

/-- `watcher.build_mention`: mode string (defaulted and lowercased) decides
between the literal token, the trimmed custom mention, and nothing. -/
def build_mention (trigger : Option Trigger) : Str :=
  match trigger with
  | none => []
  | some t =>
    let mode := lowerStr (pyOrStr t.mention_mode ("none").data)
    if mode = ("@here").data ∨ mode = ("@everyone").data then mode
    else if mode = ("custom").data then strip (t.mention_custom.getD [])
    else []

/-- Structural match of one trigger against a text, as evaluated by the
loop of `choose_trigger`: a non-empty pattern that either (type `regex`)
makes the case-insensitive engine search report a hit, or (any other type)
is a case-insensitive substring of the text. -/
def trigMatches (engine : Str → Str → Option Bool) (text : Str)
    (t : Trigger) : Bool :=
  trigPat t ≠ [] &&
    (if trigType t = ("regex").data then engine (trigPat t) text == some true
     else isSubstr (lowerStr (trigPat t)) (lowerStr text))

/-- The reason string `choose_trigger` reports for a matching trigger. -/
def trigReason (t : Trigger) : Str :=
  if trigType t = ("regex").data then ("regex:").data ++ trigPat t
  else ("kw:").data ++ trigPat t

theorem triggerScan_cons_false (engine : Str → Str → Option Bool)
    (text : Str) (u : Trigger) (rest : List Trigger)
    (h : trigMatches engine text u = false) :
    triggerScan engine text (lowerStr text) (u :: rest) =
      triggerScan engine text (lowerStr text) rest := by
  unfold trigMatches at h
  simp only [triggerScan]
  by_cases h1 : trigPat u = []
  · simp [h1]
  · simp only [h1, if_neg h1]
    by_cases h2 : trigType u = ("regex").data
    · simp only [h2, if_pos h2]
      simp only [h1, h2, if_pos h2] at h
      cases he : engine (trigPat u) text with
      | none => simp
      | some b =>
        cases b with
        | false => simp
        | true =>
          rw [he] at h; simp at h
          exact absurd h h1
    · simp only [h2, if_neg h2]
      simp only [h1, h2, if_neg h2] at h
      simp at h
      simp [h h1]

theorem triggerScan_cons_true (engine : Str → Str → Option Bool)
    (text : Str) (t : Trigger) (rest : List Trigger)
    (h : trigMatches engine text t = true) :
    triggerScan engine text (lowerStr text) (t :: rest) =
      some (t, trigReason t) := by
  unfold trigMatches at h
  simp only [Bool.and_eq_true, ne_eq, decide_not] at h
  obtain ⟨h1, h2⟩ := h
  have h1 : trigPat t ≠ [] := by simpa using h1
  simp only [triggerScan]
  unfold trigReason
  by_cases ht : trigType t = ("regex").data
  · simp only [ht, if_pos ht] at h2 ⊢
    have : engine (trigPat t) text = some true := by
      simpa using h2
    simp [h1, this]
  · simp only [ht, if_neg ht] at h2 ⊢
    have : isSubstr (lowerStr (trigPat t)) (lowerStr text) = true := by
      simpa using h2
    simp [h1, this]

theorem triggerScan_append_skip (engine : Str → Str → Option Bool)
    (text : Str) (rest : List Trigger) :
    ∀ l1 : List Trigger, (∀ u ∈ l1, trigMatches engine text u = false) →
    triggerScan engine text (lowerStr text) (l1 ++ rest) =
      triggerScan engine text (lowerStr text) rest
  | [], _ => rfl
  | u :: l1, h => by
    rw [List.cons_append,
      triggerScan_cons_false engine text u _ (h u (by simp)),
      triggerScan_append_skip engine text rest l1 (fun v hv => h v (by simp [hv]))]

/-- Claim C4: the resolver visits the configured triggers in order and
returns the first one that structurally matches (`trigMatches`: non-empty
pattern, case-insensitive engine search for type `regex`, case-insensitive
substring containment otherwise; an empty or malformed pattern never
matches and is thereby skipped), together with its reason string. -/
theorem c4_first_match_wins (engine : Str → Str → Option Bool) (cfg : Config)
    (legacyKws : List Str) (legacyRegs : List (Str × (Str → Bool)))
    (text : Str) (l1 l2 : List Trigger) (t : Trigger)
    (hcfg : cfg.triggers.getD [] = l1 ++ t :: l2)
    (hskip : ∀ u ∈ l1, trigMatches engine text u = false)
    (hmatch : trigMatches engine text t = true) :
    choose_trigger engine cfg legacyKws legacyRegs text =
      (some t, some (trigReason t)) := by
  have hscan : triggerScan engine text (lowerStr text) (cfg.triggers.getD []) =
      some (t, trigReason t) := by
    rw [hcfg, triggerScan_append_skip engine text _ l1 hskip,
      triggerScan_cons_true engine text t l2 hmatch]
  simp only [choose_trigger]
  rw [hscan]

/-- The two triggers of the C4 example. -/
def kwKilledTrigger : Trigger :=
  { name := ("Killed").data, ttype := some (("keyword").data),
    tmatch := some (("killed").data) }

/-- The regex trigger of the C4 example, with pattern
`(?i)killed|destroyed`. -/
def rgKilledTrigger : Trigger :=
  { name := ("KilledRe").data, ttype := some (("regex").data),
    tmatch := some (("(?i)killed|destroyed").data) }

/-- A concrete engine behaving as the case-insensitive search of the
pattern `(?i)killed|destroyed` on any pattern it is given; only its
behaviour on that pattern matters in the witness. -/
def killedEngine : Str → Str → Option Bool :=
  fun _ s => some (isSubstr ("killed").data (lowerStr s) ||
    isSubstr ("destroyed").data (lowerStr s))

/-- Witness for C4 at the example of the claim: with the keyword trigger
listed first, the resolver returns it with reason `kw:killed`, although
the regex trigger also matches. -/
theorem c4_witness :
    choose_trigger killedEngine { triggers := some [kwKilledTrigger, rgKilledTrigger] }
        [] [] ("Tribemember Bob was killed by a Rex").data =
      (some kwKilledTrigger, some (("kw:killed").data)) ∧
    trigMatches killedEngine ("Tribemember Bob was killed by a Rex").data
      rgKilledTrigger = true := by
  constructor
  · have h := c4_first_match_wins killedEngine
      { triggers := some [kwKilledTrigger, rgKilledTrigger] } [] []
      ("Tribemember Bob was killed by a Rex").data
      [] [rgKilledTrigger] kwKilledTrigger rfl (by simp) (by decide)
    rw [h]
    decide
  · decide

/-!
### Claim C8 — mention text derivation
-/

/-- Claim C8: the mention text is empty for mode `none`, the literal token
for the `here`/`everyone` modes (stored as the tokens `@here`/`@everyone`),
and the trimmed custom mention string for mode `custom`. -/
theorem c8_build_mention (t : Trigger) :
    (lowerStr (pyOrStr t.mention_mode ("none").data) = ("none").data →
      build_mention (some t) = []) ∧
    (lowerStr (pyOrStr t.mention_mode ("none").data) = ("@here").data →
      build_mention (some t) = ("@here").data) ∧
    (lowerStr (pyOrStr t.mention_mode ("none").data) = ("@everyone").data →
      build_mention (some t) = ("@everyone").data) ∧
    (lowerStr (pyOrStr t.mention_mode ("none").data) = ("custom").data →
      build_mention (some t) = strip (t.mention_custom.getD [])) := by
  refine ⟨?_, ?_, ?_, ?_⟩ <;> intro h <;> simp only [build_mention] <;> rw [h]
  · rw [if_neg (by decide), if_neg (by decide)]
  · rw [if_pos (by decide)]
  · rw [if_pos (by decide)]
  · rw [if_neg (by decide), if_pos (by decide)]

/-- The custom-mode trigger of the C8 witness, with a padded custom
mention string. -/
def customTrigger : Trigger :=
  { mention_mode := some (("custom").data),
    mention_custom := some (("  <@&1234>  ").data) }

/-- Witness for C8 on one trigger per mode, with an uppercase stored mode
and a padded custom string exercising the lowering and the trim. -/
theorem c8_witness :
    build_mention (some { mention_mode := some (("none").data) }) = [] ∧
    build_mention (some { mention_mode := some (("@Here").data) }) = ("@here").data ∧
    build_mention (some { mention_mode := some (("@everyone").data) }) = ("@everyone").data ∧
    build_mention (some customTrigger) = ("<@&1234>").data := by
  refine ⟨?_, ?_, ?_, ?_⟩
  · exact (c8_build_mention _).1 (by decide)
  · exact (c8_build_mention _).2.1 (by decide)
  · exact (c8_build_mention _).2.2.1 (by decide)
  · have h := (c8_build_mention customTrigger).2.2.2 (by decide)
    rw [h]
    decide

/-!
### Claim C6 — per-entry dedup state mutation
-/

/-- The per-entry dedup and classification step of `watcher.main` (the body
from the key computation to the mark), given the resolved entry text.  The
seen set `posted_header_keys` is a list with set insertion; the Boolean
reports whether the notification path was taken.  The Python
`header_key_from_text(text) or header_key_from_line(...)` is `Option.getD`
because a canonical key, when present, is never the empty string. -/
def processEntry (engine : Str → Str → Option Bool) (cfg : Config)
    (legacyKws : List Str) (legacyRegs : List (Str × (Str → Bool)))
    (seen : List Str) (header_text text : Str) : List Str × Bool :=
  let key := (header_key_from_text text).getD (header_key_from_line header_text)
  if key ∈ seen then (seen, false)
  else
    match choose_trigger engine cfg legacyKws legacyRegs text with
    | (none, _) => (seen, false)
    | (some _, _) => (seen.insert key, true)

/-- Claim C6: the seen set changes only by insertion of the current key,
and it does so exactly when the key is fresh and a trigger matched; a seen
key or a matchless text leaves the state unchanged with no notification. -/
theorem c6_dedup_mutation (engine : Str → Str → Option Bool) (cfg : Config)
    (legacyKws : List Str) (legacyRegs : List (Str × (Str → Bool)))
    (seen : List Str) (header_text text : Str) :
    ((processEntry engine cfg legacyKws legacyRegs seen header_text text).1 = seen ∨
      (processEntry engine cfg legacyKws legacyRegs seen header_text text).1 =
        seen.insert ((header_key_from_text text).getD (header_key_from_line header_text))) ∧
    ((processEntry engine cfg legacyKws legacyRegs seen header_text text).1 ≠ seen ↔
      ((header_key_from_text text).getD (header_key_from_line header_text) ∉ seen ∧
        (choose_trigger engine cfg legacyKws legacyRegs text).1 ≠ none)) ∧
    ((processEntry engine cfg legacyKws legacyRegs seen header_text text).2 = true ↔
      ((header_key_from_text text).getD (header_key_from_line header_text) ∉ seen ∧
        (choose_trigger engine cfg legacyKws legacyRegs text).1 ≠ none)) ∧
    (((header_key_from_text text).getD (header_key_from_line header_text) ∈ seen ∨
        (choose_trigger engine cfg legacyKws legacyRegs text).1 = none) →
      processEntry engine cfg legacyKws legacyRegs seen header_text text =
        (seen, false)) := by
  unfold processEntry
  rcases hc : choose_trigger engine cfg legacyKws legacyRegs text with ⟨tr, why⟩
  by_cases hk : (header_key_from_text text).getD (header_key_from_line header_text) ∈ seen
  · cases tr <;> simp [hk, hc]
  · cases tr with
    | none => simp [hk, hc]
    | some tr0 =>
      have hins : seen.insert
          ((header_key_from_text text).getD (header_key_from_line header_text)) =
          ((header_key_from_text text).getD (header_key_from_line header_text)) :: seen :=
        List.insert_of_not_mem hk
      have hne : ((header_key_from_text text).getD (header_key_from_line header_text)) ::
          seen ≠ seen := by
        intro he
        have := congrArg List.length he
        simp at this
      simp [hk, hc, hins, hne]

/-- Witness for C6: a fresh key and a matching trigger insert exactly that
key and notify. -/
theorem c6_witness :
    (processEntry killedEngine { triggers := some [kwKilledTrigger] } [] [] []
      ("Day 2, 03:04:05").data ("Day 2, 03:04:05 Bob was killed").data).2 = true ∧
    (processEntry killedEngine { triggers := some [kwKilledTrigger] } [] [] []
      ("Day 2, 03:04:05").data ("Day 2, 03:04:05 Bob was killed").data).1 =
      [("d2-t030405").data] := by
  constructor
  · exact (c6_dedup_mutation killedEngine { triggers := some [kwKilledTrigger] } [] []
      [] ("Day 2, 03:04:05").data ("Day 2, 03:04:05 Bob was killed").data).2.2.1.mpr
      ⟨by decide, by decide⟩
  · decide

/-!
### utils.py — the bounded TTL dedup set
-/

/-- `utils.TTLSet`: a deque of `(key, expires_at)` pairs, front oldest,
with the configured time-to-live and capacity.  Wall-clock instants
(`time.time()`) are integers supplied explicitly to each operation. -/
structure TTLSet where
  ttl : Int
  maxlen : Nat
  dq : List (Str × Int)
deriving DecidableEq

/-- The freshly constructed set (`TTLSet(ttl_seconds, maxlen)`). -/
def emptyTTL (ttl : Int) (maxlen : Nat) : TTLSet := ⟨ttl, maxlen, []⟩

/-- The `while len(dq) > maxlen: dq.popleft()` loop of `TTLSet.add`. -/
def trimOld (maxlen : Nat) : List (Str × Int) → List (Str × Int)
  | [] => []
  | x :: rest =>
    if rest.length + 1 > maxlen then trimOld maxlen rest else x :: rest

/-- `TTLSet.add`: append `(key, now + ttl)` at the back, then drop from the
front while over capacity. -/
def TTLSet.add (s : TTLSet) (key : Str) (now : Int) : TTLSet :=
  { s with dq := trimOld s.maxlen (s.dq ++ [(key, now + s.ttl)]) }

/-- The `while dq and dq[0][1] < now: dq.popleft()` lazy eviction of
`TTLSet.__contains__`: drop expired entries from the front, stopping at the
first entry that has not expired. -/
def dropExpired (now : Int) : List (Str × Int) → List (Str × Int)
  | [] => []
  | (k, exp) :: rest =>
    if exp < now then dropExpired now rest else (k, exp) :: rest

/-- `TTLSet.__contains__` at instant `now`: evict lazily, then scan for an
entry with the key whose expiry has not passed.  Returns the answer and the
mutated set. -/
def TTLSet.containsAt (s : TTLSet) (key : Str) (now : Int) : Bool × TTLSet :=
  let dq := dropExpired now s.dq
  (dq.any (fun p => decide (p.1 = key) && decide (now ≤ p.2)),
    { s with dq := dq })

/-- A sequence of `add` operations, each a `(key, instant)` pair. -/
def foldAdds (s : TTLSet) (ops : List (Str × Int)) : TTLSet :=
  ops.foldl (fun st p => st.add p.1 p.2) s

theorem trimOld_length (m : Nat) :
    ∀ l : List (Str × Int), (trimOld m l).length = min l.length m
  | [] => by simp [trimOld]
  | x :: rest => by
    by_cases h : rest.length + 1 > m
    · rw [trimOld, if_pos h, trimOld_length m rest]
      simp; omega
    · rw [trimOld, if_neg h]
      simp; omega

theorem trimOld_of_le (m : Nat) :
    ∀ l : List (Str × Int), l.length ≤ m → trimOld m l = l
  | [], _ => rfl
  | x :: rest, h => by
    rw [trimOld, if_neg]
    simp at h
    omega

theorem mem_trimOld (m : Nat) (x : Str × Int) :
    ∀ l : List (Str × Int), x ∈ trimOld m l → x ∈ l
  | [], h => h
  | y :: rest, h => by
    rw [trimOld] at h
    by_cases hc : rest.length + 1 > m
    · rw [if_pos hc] at h
      exact List.mem_cons_of_mem y (mem_trimOld m x rest h)
    · rwa [if_neg hc] at h

theorem mem_dropExpired (now : Int) (x : Str × Int) :
    ∀ l : List (Str × Int), x ∈ dropExpired now l → x ∈ l
  | [], h => h
  | (k, exp) :: rest, h => by
    rw [dropExpired] at h
    by_cases hc : exp < now
    · rw [if_pos hc] at h
      exact List.mem_cons_of_mem _ (mem_dropExpired now x rest h)
    · rwa [if_neg hc] at h

theorem add_fields (s : TTLSet) (k : Str) (n : Int) :
    (s.add k n).ttl = s.ttl ∧ (s.add k n).maxlen = s.maxlen := ⟨rfl, rfl⟩

theorem add_length_le (s : TTLSet) (k : Str) (n : Int) :
    (s.add k n).dq.length ≤ s.maxlen := by
  show (trimOld s.maxlen (s.dq ++ [(k, n + s.ttl)])).length ≤ s.maxlen
  rw [trimOld_length]
  omega

theorem foldAdds_length_le :
    ∀ (ops : List (Str × Int)) (s : TTLSet), s.dq.length ≤ s.maxlen →
      (foldAdds s ops).dq.length ≤ s.maxlen
  | [], _, h => h
  | p :: rest, s, _ => by
    show (foldAdds (s.add p.1 p.2) rest).dq.length ≤ s.maxlen
    exact foldAdds_length_le rest (s.add p.1 p.2) (add_length_le s p.1 p.2)

theorem mem_foldAdds :
    ∀ (ops : List (Str × Int)) (s : TTLSet) (x : Str × Int),
      x ∈ (foldAdds s ops).dq →
      x ∈ s.dq ∨ ∃ p ∈ ops, x = (p.1, p.2 + s.ttl)
  | [], _, _, h => Or.inl h
  | p :: rest, s, x, h => by
    have h2 := mem_foldAdds rest (s.add p.1 p.2) x h
    rcases h2 with h2 | ⟨q, hq, hx⟩
    · have h3 : x ∈ s.dq ++ [(p.1, p.2 + s.ttl)] :=
        mem_trimOld s.maxlen x _ h2
      rcases List.mem_append.mp h3 with h4 | h4
      · exact Or.inl h4
      · refine Or.inr ⟨p, List.mem_cons_self p rest, ?_⟩
        simpa using h4
    · exact Or.inr ⟨q, List.mem_cons_of_mem p hq, hx⟩

/-- Claim C10: (capacity) a set built by any sequence of adds holds at most
`maxlen` entries; (eviction order) an add to a full set of positive
capacity drops exactly the front, oldest entry; (membership soundness) a
positive membership query on a built set implies an add of that key was
performed no more than `ttl` before the query instant and the entry is
still present. -/
theorem c10_ttlset (ttl : Int) (maxlen : Nat) (ops : List (Str × Int))
    (key : Str) (now : Int) :
    (foldAdds (emptyTTL ttl maxlen) ops).dq.length ≤ maxlen ∧
    (∀ (s : TTLSet) (k : Str) (n : Int),
      s.dq.length = s.maxlen → 1 ≤ s.maxlen →
      (s.add k n).dq = s.dq.tail ++ [(k, n + s.ttl)]) ∧
    (((foldAdds (emptyTTL ttl maxlen) ops).containsAt key now).1 = true →
      ∃ p ∈ ops, p.1 = key ∧ now ≤ p.2 + ttl) := by
  refine ⟨?_, ?_, ?_⟩
  · exact foldAdds_length_le ops (emptyTTL ttl maxlen) (by simp [emptyTTL])
  · intro s k n hfull hpos
    show trimOld s.maxlen (s.dq ++ [(k, n + s.ttl)]) = s.dq.tail ++ [(k, n + s.ttl)]
    cases hdq : s.dq with
    | nil =>
      rw [hdq] at hfull
      simp at hfull
      omega
    | cons x rest =>
      rw [hdq] at hfull
      simp only [List.length_cons] at hfull
      have hcond : (rest ++ [(k, n + s.ttl)]).length + 1 > s.maxlen := by
        simp
        omega
      have hlen : (rest ++ [(k, n + s.ttl)]).length ≤ s.maxlen := by
        simp
        omega
      rw [List.cons_append, trimOld, if_pos hcond, trimOld_of_le _ _ hlen]
      rfl
  · intro hmem
    simp only [TTLSet.containsAt, List.any_eq_true, Bool.and_eq_true,
      decide_eq_true_eq] at hmem
    obtain ⟨q, hq, hqk, hqe⟩ := hmem
    have hq2 : q ∈ (foldAdds (emptyTTL ttl maxlen) ops).dq :=
      mem_dropExpired now q _ hq
    rcases mem_foldAdds ops (emptyTTL ttl maxlen) q hq2 with h | ⟨p, hp, hpx⟩
    · simp [emptyTTL] at h
    · refine ⟨p, hp, ?_, ?_⟩
      · rw [hpx] at hqk
        simpa using hqk
      · have h2 : q.2 = p.2 + ttl := by simp [hpx, emptyTTL]
        omega

/-- Witness for C10: one add at instant 0 with ttl 60 keeps the set within
capacity 2; an add to a full two-entry set drops the front entry; a
positive membership query at instant 30 exhibits the add within the ttl. -/
theorem c10_witness :
    (foldAdds (emptyTTL 60 2) [(("a").data, 0)]).dq.length ≤ 2 ∧
    ((⟨60, 2, [(("x").data, 70), (("y").data, 75)]⟩ : TTLSet).add
      (("b").data) 20).dq = [(("y").data, 75), (("b").data, 80)] ∧
    ((foldAdds (emptyTTL 60 2) [(("a").data, 0)]).containsAt (("a").data) 30).1
      = true ∧
    (∃ p ∈ [((("a").data : Str), (0 : Int))], p.1 = ("a").data ∧ (30 : Int) ≤ p.2 + 60) := by
  refine ⟨(c10_ttlset 60 2 [(("a").data, 0)] ("a").data 30).1, ?_, by decide, ?_⟩
  · have h := (c10_ttlset 60 2 [(("a").data, 0)] ("a").data 30).2.1
      (⟨60, 2, [(("x").data, 70), (("y").data, 75)]⟩ : TTLSet) (("b").data) 20
      (by decide) (by decide)
    rw [h]
    decide
  · exact (c10_ttlset 60 2 [(("a").data, 0)] ("a").data 30).2.2 (by decide)

end Ark
